import Mathlib

/-!
Verification of the "Future Human" wizard / connection-reconciler core.

This file gives a shallow embedding of:
  * the connection diffing equality `equalConn` and the reconciler
    `saveConnectionsDelta` of
    `client/src/components/Agent/Forms/PersonaForm.tsx`
    (modelled as `runDelta`, with the sequential network calls made
    explicit as an operation trace and a server oracle),
  * the temporary-id reconciliation `reconcileIds` at its (only) call
    site inside `applyDelta` in the same file,
  * the numeric style-score coercions `clamp01`
    (`client/src/services/agents.ts`) and `toInt010` (wizard page),
  * the hex-color normalization `isHex` / `normHex` and the
    `bgColor` field of `toServerAgentPayload`
    (`client/src/services/agents.ts`),
  * the wizard state store of `src/state/agentWizard.tsx`
    (reducer, `next` / `back` / `goto`).

JavaScript `Map`s are embedded as association lists with JS `Map`
semantics (insertion order of first key occurrence, last value wins);
JS numbers are embedded as rationals; `null` / `undefined` are both
embedded as `Option.none` (the two are only ever distinguished by the
source through `??` and `!= null`, which treat them alike at every
modelled site).
-/

namespace FutureHuman

/-! ### Connection data model (PersonaForm.tsx `ConnectionItem`) -/

/-- `ConnectionStatus = "connected" | "needs_setup" | "error"`. -/
inductive Status where
  | connected
  | needs_setup
  | error
deriving DecidableEq, Repr

/-- A connection id is a server numeric id or a client temporary string id
(`id?: number | string`). -/
inductive ConnId where
  | num (n : Int)
  | str (s : String)
deriving DecidableEq, Repr

/-- JS template-literal rendering of an id (`` `${c.id}` `` / `.toString()`). -/
def idToString : ConnId → String
  | .num n => toString n
  | .str s => s

/-- `config` payload (`config?: any | null`). Every `config` object this
repository builds is a flat string map: the connection config modal
assembles it from `getConfigSchema` text/secret fields, and the wizard's
`Connection` type declares it `Record<string,string>`. Structural
equality of the ordered field list coincides with the source's
`JSON.stringify(a ?? null) === JSON.stringify(b ?? null)` comparison,
since stringification preserves key order. -/
abbrev Cfg := List (String × String)

/-- `ConnectionItem` of PersonaForm.tsx, restricted to the fields the
reconciler reads (`agentId`/`createdAt`/`updatedAt` are never consulted
by the diffing or reconciliation code). Absent (`undefined`) and `null`
field values are both `none`. -/
structure Conn where
  id : Option ConnId
  providerId : String
  extId : String
  status : Option Status
  config : Option Cfg
  token : Option String
deriving DecidableEq, Repr

/-- `equalConn` (PersonaForm.tsx): the diffing equality. `status` is
defaulted to `"needs_setup"`, `config` is deep-compared after
null-normalization (`sameVal(a.config ?? null, b.config ?? null)`),
`token` is null-normalized. -/
def equalConn (a b : Conn) : Bool :=
  decide (a.providerId = b.providerId) &&
  decide (a.extId = b.extId) &&
  decide (a.status.getD .needs_setup = b.status.getD .needs_setup) &&
  decide (a.config = b.config) &&
  decide (a.token = b.token)

/-! ### JS `Map` as an association list -/

/-- JS `Map.prototype.get` (first — and only — entry with this key). -/
def mapGet {α : Type} (m : List (String × α)) (k : String) : Option α :=
  (m.find? (fun p => decide (p.1 = k))).map (·.2)

/-- JS `Map.prototype.has`. -/
def mapHas {α : Type} (m : List (String × α)) (k : String) : Bool :=
  (m.find? (fun p => decide (p.1 = k))).isSome

/-- JS `Map.prototype.set`: replace the value in place when the key is
present, else append. -/
def upsert {α : Type} (m : List (String × α)) (k : String) (v : α) :
    List (String × α) :=
  if m.any (fun p => decide (p.1 = k)) then
    m.map (fun p => if p.1 = k then (k, v) else p)
  else
    m ++ [(k, v)]

/-- `new Map(l.map(c => [key c, c]))`. -/
def toMapBy {α : Type} (key : α → String) (l : List α) :
    List (String × α) :=
  l.foldl (fun m c => upsert m (key c) c) []

/-- Keys of an association list. -/
def keysOf {α : Type} (m : List (String × α)) : List String := m.map Prod.fst

/-! ### The connection reconciler (`saveConnectionsDelta`)

`const key = (c) => (c.id != null ? `id:${c.id}` : `k:${c.providerId}#${c.extId}`)`
then `pre = new Map(before.map(c => [key(c), c]))`,
`cur = new Map(after.map(c => [key(c), c]))`; the create/update loop walks
`cur`, the delete loop walks `pre`, and every network call is awaited
sequentially, aborting the whole pass on the first rejection. -/

/-- The reconciler's key function. -/
def keyFn (c : Conn) : String :=
  match c.id with
  | some i => "id:" ++ idToString i
  | none => "k:" ++ c.providerId ++ "#" ++ c.extId

/-- Body sent by the create call:
`{providerId, extId, status: c.status ?? "needs_setup", config: c.config ?? null, token: c.token ?? null}`. -/
structure CreatePayload where
  providerId : String
  extId : String
  status : Status
  config : Option Cfg
  token : Option String
deriving DecidableEq, Repr

def mkCreatePayload (c : Conn) : CreatePayload :=
  ⟨c.providerId, c.extId, c.status.getD .needs_setup, c.config, c.token⟩

/-- Body sent by the update call:
`{providerId, extId, status: c.status, config: c.config, token: c.token}`
(no defaulting here; absent fields stay absent). -/
structure UpdatePayload where
  providerId : String
  extId : String
  status : Option Status
  config : Option Cfg
  token : Option String
deriving DecidableEq, Repr

def mkUpdatePayload (c : Conn) : UpdatePayload :=
  ⟨c.providerId, c.extId, c.status, c.config, c.token⟩

/-- What `createConnection` / `updateConnection` resolve with: the server
route answers `{ connection: {...} }`, and `saveConnectionsDelta` pushes
this WRAPPER — not the inner record — onto `created` / `updated`. -/
structure Resp where
  connection : Conn
deriving DecidableEq, Repr

/-- A network call issued by the reconciler, in issue order. -/
inductive Op where
  | create (p : CreatePayload)
  | update (i : ConnId) (p : UpdatePayload)
  | delete (i : ConnId)
deriving DecidableEq, Repr

/-- The reconciler's return value `{created, updated, deleted}`. -/
structure Delta where
  created : List Resp
  updated : List Resp
  deleted : List ConnId
deriving DecidableEq, Repr

/-- The HTTP collaborator (`createConnection` / `updateConnection` /
`deleteConnection` for a fixed agent id): each call either resolves or
rejects. -/
structure Oracle where
  createC : CreatePayload → Except Unit Resp
  updateC : ConnId → UpdatePayload → Except Unit Resp
  deleteC : ConnId → Except Unit Unit

/-- An oracle whose calls always succeed, with the given response
functions. -/
def mkOk (fc : CreatePayload → Resp) (fu : ConnId → UpdatePayload → Resp)
    : Oracle :=
  ⟨fun p => .ok (fc p), fun i p => .ok (fu i p), fun _ => .ok ()⟩

/-- The create/update loop (`for (const [k, c] of cur)`), returning the
calls issued and — unless a call rejected — the `created` and `updated`
accumulators. -/
def cuLoop (o : Oracle) (pre : List (String × Conn)) :
    List (String × Conn) → List Op × Except Unit (List Resp × List Resp)
  | [] => ([], .ok ([], []))
  | p :: rest =>
    match mapGet pre p.1 with
    | none =>
      let pay := mkCreatePayload p.2
      match o.createC pay with
      | .error e => ([.create pay], .error e)
      | .ok made =>
        let r := cuLoop o pre rest
        (.create pay :: r.1,
          match r.2 with
          | .error e => .error e
          | .ok cu => .ok (made :: cu.1, cu.2))
    | some prev =>
      if equalConn prev p.2 then cuLoop o pre rest
      else
        match prev.id with
        | none => cuLoop o pre rest
        | some i =>
          let pay := mkUpdatePayload p.2
          match o.updateC i pay with
          | .error e => ([.update i pay], .error e)
          | .ok up =>
            let r := cuLoop o pre rest
            (.update i pay :: r.1,
              match r.2 with
              | .error e => .error e
              | .ok cu => .ok (cu.1, up :: cu.2))

/-- The delete loop (`for (const [k, c] of pre)`). -/
def delLoop (o : Oracle) (cur : List (String × Conn)) :
    List (String × Conn) → List Op × Except Unit (List ConnId)
  | [] => ([], .ok [])
  | p :: rest =>
    if mapHas cur p.1 then delLoop o cur rest
    else
      match p.2.id with
      | none => delLoop o cur rest
      | some i =>
        match o.deleteC i with
        | .error e => ([.delete i], .error e)
        | .ok _ =>
          let r := delLoop o cur rest
          (.delete i :: r.1,
            match r.2 with
            | .error e => .error e
            | .ok ds => .ok (i :: ds))

/-- `saveConnectionsDelta(before, after)`, with the issued network calls
made explicit. On the first rejected call the pass aborts (the JS
exception propagates) and the partially-built accumulators are lost. -/
def runDelta (o : Oracle) (before after : List Conn) :
    List Op × Except Unit Delta :=
  let pre := toMapBy keyFn before
  let cur := toMapBy keyFn after
  match cuLoop o pre cur with
  | (ops, .error e) => (ops, .error e)
  | (ops1, .ok cu) =>
    match delLoop o cur pre with
    | (ops2, .error e) => (ops1 ++ ops2, .error e)
    | (ops2, .ok ds) => (ops1 ++ ops2, .ok ⟨cu.1, cu.2, ds⟩)

/-! ### Temporary-id reconciliation (`reconcileIds`) at its call site

`reconcileIds(after, created, updated)` is declared over
`ConnectionItem[]`, but its only call site (`applyDelta`) passes the
`created` / `updated` arrays that `saveConnectionsDelta` filled with the
raw `{ connection: {...} }` responses of `createConnection` /
`updateConnection`. At run time every property the function reads off
those wrapper objects (`providerId`, `extId`, `id`, `status`) is absent,
i.e. `undefined`; the embedding below makes those dynamic reads
explicit. -/

/-- JS property read `r.providerId` on the `{connection}` wrapper:
the property is absent, hence `undefined`. -/
def respProviderId (_ : Resp) : Option String := none

/-- JS property read `r.extId` on the wrapper: `undefined`. -/
def respExtId (_ : Resp) : Option String := none

/-- JS property read `r.id` on the wrapper: `undefined`. -/
def respId (_ : Resp) : Option ConnId := none

/-- JS property read `r.status` on the wrapper: `undefined`. -/
def respStatus (_ : Resp) : Option Status := none

/-- JS template-literal rendering of a possibly-undefined string. -/
def optToString : Option String → String
  | some s => s
  | none => "undefined"

/-- `byProviderKey(c) = `${c.providerId}#${c.extId}`` applied to a `Conn`. -/
def byProviderKeyConn (c : Conn) : String := c.providerId ++ "#" ++ c.extId

/-- `byProviderKey` applied to a `{connection}` wrapper. -/
def byProviderKeyResp (r : Resp) : String :=
  optToString (respProviderId r) ++ "#" ++ optToString (respExtId r)

/-- `updatedMap`'s key `(c.id ?? byProviderKey(c)).toString()` applied to
a `{connection}` wrapper (`c.id` is `undefined`, so the business key of
the wrapper is used). -/
def updatedKeyResp (r : Resp) : String :=
  match respId r with
  | some i => idToString i
  | none => byProviderKeyResp r

/-- JS `s.startsWith(p)`: `p`'s characters are an initial segment of
`s`'s. -/
def jsStartsWith (s p : String) : Bool := p.data.isPrefixOf s.data

/-- `row.id == null || String(row.id).startsWith("tmp:")`. -/
def rowIsTmp (c : Conn) : Bool :=
  match c.id with
  | none => true
  | some i => jsStartsWith (idToString i) "tmp:"

/-- The body of `after.map(row => ...)` in `reconcileIds`. Merging a hit
is `{ ...row, id: srv.id, status: srv.status ?? row.status }`. -/
def reconcileRow (createdMap updatedMap : List (String × Resp)) (row : Conn) :
    Conn :=
  let updHit : Option Resp :=
    match row.id with
    | some i => mapGet updatedMap (idToString i)
    | none => none
  match updHit with
  | some srv =>
    { row with
        id := respId srv
        status := match respStatus srv with
          | some s => some s
          | none => row.status }
  | none =>
    if rowIsTmp row then
      match mapGet createdMap (byProviderKeyConn row) with
      | some srv =>
        { row with
            id := respId srv
            status := match respStatus srv with
              | some s => some s
              | none => row.status }
      | none => row
    else row

/-- `reconcileIds(after, created, updated)` specialized to the values it
actually receives at run time. -/
def reconcileIds (after : List Conn) (created updated : List Resp) :
    List Conn :=
  let createdMap := toMapBy byProviderKeyResp created
  let updatedMap := toMapBy updatedKeyResp updated
  after.map (reconcileRow createdMap updatedMap)

/-! ### `applyDelta` (ConnectionsForm client state) -/

/-- One user-visible notification (`setNotifMessage` + `setShowNotif`). -/
inductive Notif where
  | success
  | error
deriving DecidableEq, Repr

/-- The client state `applyDelta` touches: the displayed rows, the
server-snapshot ref (`initialRef`), the surfaced notifications, and the
lists reported to the parent via `onChange` (through which the wizard
document's connections section is updated). -/
structure FormState where
  rows : List Conn
  initialRef : List Conn
  notifs : List Notif
  parentReports : List (List Conn)
deriving DecidableEq, Repr

/-- `applyDelta(before, after)`: with no `agentId` it only updates local
state and reports to the parent (no network); otherwise it runs
`saveConnectionsDelta`, reconciles ids on success, and on any rejected
call surfaces a single error notification while leaving `rows`,
`initialRef` and the parent untouched. Returns the new state and the
network calls issued. -/
def applyDelta (agentId : Option String) (o : Oracle) (st : FormState)
    (before after : List Conn) : FormState × List Op :=
  match agentId with
  | none =>
    ({ st with
        rows := after
        initialRef := after
        parentReports := st.parentReports ++ [after] }, [])
  | some _ =>
    match runDelta o before after with
    | (ops, .error _) =>
      ({ st with notifs := st.notifs ++ [.error] }, ops)
    | (ops, .ok d) =>
      let reconciled := reconcileIds after d.created d.updated
      ({ rows := reconciled
         initialRef := reconciled
         notifs := st.notifs ++ [.success]
         parentReports := st.parentReports ++ [reconciled] }, ops)

/-! ### Style-score coercions

JS numbers are embedded as `Option ℚ`: `none` stands for any value that
fails the source's `typeof v === "number" && (Number.)isFinite(v)` test
(absent, non-numeric, `NaN`, `±Infinity`). `Math.round` on the values at
issue is `⌊q + 1/2⌋` (JS rounds half-way cases toward `+∞`). -/

/-- JS `Math.round`. -/
def jsRound (q : ℚ) : ℤ := ⌊q + 1 / 2⌋

/-- `clamp01` of `client/src/services/agents.ts`:
`typeof v === "number" && isFinite(v) ? Math.max(0, Math.min(10, v)) : 5`.
Note: no rounding — a finite non-integer passes through clamped only. -/
def clamp01 : Option ℚ → ℚ
  | some q => max 0 (min 10 q)
  | none => 5

/-- `toInt010` of the wizard page (unnamed source, `part_005`):
`const n = typeof v === "number" && Number.isFinite(v) ? Math.round(v) : fallback;`
`return Math.max(0, Math.min(10, n));` with `fallback = 5` at every call
site. -/
def toInt010 (v : Option ℚ) : ℤ :=
  let n : ℤ :=
    match v with
    | some q => jsRound q
    | none => 5
  max 0 (min 10 n)

/-! ### Hex-color normalization (`client/src/services/agents.ts`)

Strings are embedded as `List Char`; the input is an `Option` to cover
the `string | null | undefined` parameter type. -/

/-- One character of the regex class `[0-9a-fA-F]`. -/
def isHexDigit (c : Char) : Bool :=
  ('0' ≤ c && c ≤ '9') || ('a' ≤ c && c ≤ 'f') || ('A' ≤ c && c ≤ 'F')

/-- What `/^[#]?[0-9a-fA-F]{3,8}$/` matches after the optional `#`. -/
def hexBody : List Char → List Char
  | '#' :: t => t
  | l => l

/-- The regex `/^[#]?[0-9a-fA-F]{3,8}$/.test(s)`. -/
def hexRe (l : List Char) : Bool :=
  decide (3 ≤ (hexBody l).length) && decide ((hexBody l).length ≤ 8) &&
    (hexBody l).all isHexDigit

/-- `isHex = (s) => !!s && /^[#]?[0-9a-fA-F]{3,8}$/.test(s)`
(`!!s` is false for `null`, `undefined` and the empty string). -/
def isHex : Option (List Char) → Bool
  | none => false
  | some [] => false
  | some l => hexRe l

/-- `normHex = (s) => (s ? (s.startsWith("#") ? s : `#${s}`) : null)`. -/
def normHex : Option (List Char) → Option (List Char)
  | none => none
  | some [] => none
  | some l =>
    some (match l with
      | '#' :: t => '#' :: t
      | l => '#' :: l)

/-- The `bgColor` normalization applied by `toServerAgentPayload`:
`isHex(bg) ? normHex(bg)! : null`. -/
def normColor (s : Option (List Char)) : Option (List Char) :=
  if isHex s then normHex s else none

/-! ### Wizard state store (`src/state/agentWizard.tsx`) -/

/-- The fixed step identifiers. The fifth step's KEY is `"cards"` (its UI
label is "Background"). -/
inductive Step where
  | identity
  | appearance
  | voiceSoul
  | brain
  | cards
  | connections
deriving DecidableEq, Repr, Fintype

/-- `STEPS` in source order. -/
def STEPS : List Step :=
  [.identity, .appearance, .voiceSoul, .brain, .cards, .connections]

/-- The step identifier string as written in the source. -/
def stepName : Step → String
  | .identity => "identity"
  | .appearance => "appearance"
  | .voiceSoul => "voiceSoul"
  | .brain => "brain"
  | .cards => "cards"
  | .connections => "connections"

structure IdentityData where
  name : String
  role : String
  description : String
deriving DecidableEq, Repr

structure AppearanceData where
  personaId : Option String
deriving DecidableEq, Repr

structure VoiceSoulData where
  language : String
  voice : String
  styleFormality : ℚ
  stylePace : ℚ
  tempCalm : ℚ
  tempIntrovert : ℚ
  empathy : ℚ
  humor : ℚ
  creativity : ℚ
  directness : ℚ
deriving DecidableEq, Repr

structure BrainData where
  brainId : String
  instructions : String
deriving DecidableEq, Repr

structure CardsData where
  backgroundId : Option String
deriving DecidableEq, Repr

/-- The wizard's own `Connection` slice type (string id, required
status). -/
structure WConnection where
  id : String
  providerId : String
  status : Status
  config : Option Cfg
  token : Option String
deriving DecidableEq, Repr

structure ConnectionsData where
  items : List WConnection
deriving DecidableEq, Repr

/-- `WizardState`. `updatedAt` (a `Date.now()` timestamp) is a `Nat`. -/
structure WizardState where
  current : Step
  identity : IdentityData
  appearance : AppearanceData
  voiceSoul : VoiceSoulData
  brain : BrainData
  cards : CardsData
  connections : ConnectionsData
  draftId : Option String
  updatedAt : Nat
deriving DecidableEq, Repr

/-- `defaultState` (its module-load `updatedAt` stamp is taken as 0). -/
def defaultState : WizardState :=
  { current := .identity
    identity := ⟨"", "", ""⟩
    appearance := ⟨none⟩
    voiceSoul := ⟨"en", "alex", 5, 5, 5, 5, 5, 5, 5, 5⟩
    brain := ⟨"level1", ""⟩
    cards := ⟨none⟩
    connections := ⟨[]⟩
    draftId := none
    updatedAt := 0 }

/-- Shallow merge-patches for the `SAVE` action (`{...state[step], ...data}`):
each named field is replaced when present in the patch. -/
structure IdentityPatch where
  name : Option String
  role : Option String
  description : Option String
deriving DecidableEq, Repr

structure AppearancePatch where
  personaId : Option (Option String)
deriving DecidableEq, Repr

structure VoiceSoulPatch where
  language : Option String
  voice : Option String
  styleFormality : Option ℚ
  stylePace : Option ℚ
  tempCalm : Option ℚ
  tempIntrovert : Option ℚ
  empathy : Option ℚ
  humor : Option ℚ
  creativity : Option ℚ
  directness : Option ℚ
deriving DecidableEq, Repr

structure BrainPatch where
  brainId : Option String
  instructions : Option String
deriving DecidableEq, Repr

structure CardsPatch where
  backgroundId : Option (Option String)
deriving DecidableEq, Repr

structure ConnectionsPatch where
  items : Option (List WConnection)
deriving DecidableEq, Repr

def mergeIdentity (d : IdentityData) (p : IdentityPatch) : IdentityData :=
  ⟨p.name.getD d.name, p.role.getD d.role, p.description.getD d.description⟩

def mergeAppearance (d : AppearanceData) (p : AppearancePatch) : AppearanceData :=
  ⟨p.personaId.getD d.personaId⟩

def mergeVoiceSoul (d : VoiceSoulData) (p : VoiceSoulPatch) : VoiceSoulData :=
  ⟨p.language.getD d.language, p.voice.getD d.voice,
   p.styleFormality.getD d.styleFormality, p.stylePace.getD d.stylePace,
   p.tempCalm.getD d.tempCalm, p.tempIntrovert.getD d.tempIntrovert,
   p.empathy.getD d.empathy, p.humor.getD d.humor,
   p.creativity.getD d.creativity, p.directness.getD d.directness⟩

def mergeBrain (d : BrainData) (p : BrainPatch) : BrainData :=
  ⟨p.brainId.getD d.brainId, p.instructions.getD d.instructions⟩

def mergeCards (d : CardsData) (p : CardsPatch) : CardsData :=
  ⟨p.backgroundId.getD d.backgroundId⟩

def mergeConnections (d : ConnectionsData) (p : ConnectionsPatch) : ConnectionsData :=
  ⟨p.items.getD d.items⟩

/-- `Partial<WizardState>` for `LOAD_MERGE`: the top-level spread
`{...state, ...action.saved}` replaces whole sections. (`updatedAt` from
the draft is irrelevant: the reducer overwrites it with `Date.now()`.) -/
structure WizardSaved where
  current : Option Step
  identity : Option IdentityData
  appearance : Option AppearanceData
  voiceSoul : Option VoiceSoulData
  brain : Option BrainData
  cards : Option CardsData
  connections : Option ConnectionsData
  draftId : Option (Option String)
deriving DecidableEq, Repr

/-- The reducer's `Action` type. The source's single `SAVE` case is keyed
by `action.step` with an `any`-typed payload; it is split here into one
constructor per section, which is what every (typed) dispatch site
produces. -/
inductive WAction where
  | setStep (step : Step)
  | saveIdentity (p : IdentityPatch)
  | saveAppearance (p : AppearancePatch)
  | saveVoiceSoul (p : VoiceSoulPatch)
  | saveBrain (p : BrainPatch)
  | saveCards (p : CardsPatch)
  | saveConnections (p : ConnectionsPatch)
  | loadMerge (saved : WizardSaved) (preserveCurrent : Bool)
  | setDraftId (id : String)
  | reset
deriving DecidableEq, Repr

/-- `reducer(state, action)`; `now` is the value `Date.now()` returns at
this dispatch. -/
def reducer (now : Nat) (st : WizardState) : WAction → WizardState
  | .setStep step =>
    if st.current = step then st
    else { st with current := step, updatedAt := now }
  | .saveIdentity p =>
    { st with identity := mergeIdentity st.identity p, updatedAt := now }
  | .saveAppearance p =>
    { st with appearance := mergeAppearance st.appearance p, updatedAt := now }
  | .saveVoiceSoul p =>
    { st with voiceSoul := mergeVoiceSoul st.voiceSoul p, updatedAt := now }
  | .saveBrain p =>
    { st with brain := mergeBrain st.brain p, updatedAt := now }
  | .saveCards p =>
    { st with cards := mergeCards st.cards p, updatedAt := now }
  | .saveConnections p =>
    { st with connections := mergeConnections st.connections p, updatedAt := now }
  | .loadMerge saved preserveCurrent =>
    let merged : WizardState :=
      { current := if preserveCurrent then st.current
          else saved.current.getD st.current
        identity := saved.identity.getD st.identity
        appearance := saved.appearance.getD st.appearance
        voiceSoul := saved.voiceSoul.getD st.voiceSoul
        brain := saved.brain.getD st.brain
        cards := saved.cards.getD st.cards
        connections := saved.connections.getD st.connections
        draftId := saved.draftId.getD st.draftId
        updatedAt := now }
    merged
  | .setDraftId i =>
    { st with draftId := some i, updatedAt := now }
  | .reset =>
    { defaultState with updatedAt := now }

/-- The `next` callback: `const idx = STEPS.indexOf(state.current); if
(idx < STEPS.length - 1) dispatch SET_STEP STEPS[idx + 1]`. -/
def next (now : Nat) (st : WizardState) : WizardState :=
  let idx := STEPS.indexOf st.current
  if idx < STEPS.length - 1 then
    reducer now st (.setStep (STEPS.getD (idx + 1) .identity))
  else st

/-- The `back` callback: dispatches only when `idx > 0`. -/
def back (now : Nat) (st : WizardState) : WizardState :=
  let idx := STEPS.indexOf st.current
  if idx > 0 then
    reducer now st (.setStep (STEPS.getD (idx - 1) .identity))
  else st

/-- The exposed `goto`: `(s) => { if (state.current !== s) goto(s) }`
wrapping a `SET_STEP` dispatch. -/
def goto (now : Nat) (st : WizardState) (s : Step) : WizardState :=
  if st.current = s then st else reducer now st (.setStep s)

/-! ### Per-entry delta characterization (specification-side helpers)

For a pass whose network calls all succeed, the loops act independently
on each map entry; the following functions give the per-entry outcome
and are related to the loops by the characterization lemmas below. -/

/-- Call issued by the create/update loop for one `cur` entry. -/
def cuOp (pre : List (String × Conn)) (p : String × Conn) : Option Op :=
  match mapGet pre p.1 with
  | none => some (.create (mkCreatePayload p.2))
  | some prev =>
    if equalConn prev p.2 then none
    else
      match prev.id with
      | none => none
      | some i => some (.update i (mkUpdatePayload p.2))

/-- Entry appended to `created` for one `cur` entry. -/
def cuCreated (pre : List (String × Conn)) (fc : CreatePayload → Resp)
    (p : String × Conn) : Option Resp :=
  match mapGet pre p.1 with
  | none => some (fc (mkCreatePayload p.2))
  | some _ => none

/-- Entry appended to `updated` for one `cur` entry. -/
def cuUpdated (pre : List (String × Conn)) (fu : ConnId → UpdatePayload → Resp)
    (p : String × Conn) : Option Resp :=
  match mapGet pre p.1 with
  | none => none
  | some prev =>
    if equalConn prev p.2 then none
    else
      match prev.id with
      | none => none
      | some i => some (fu i (mkUpdatePayload p.2))

/-- Call issued by the delete loop for one `pre` entry. -/
def delOp (cur : List (String × Conn)) (p : String × Conn) : Option Op :=
  if mapHas cur p.1 then none
  else
    match p.2.id with
    | none => none
    | some i => some (.delete i)

/-- Id appended to `deleted` for one `pre` entry. -/
def delId (cur : List (String × Conn)) (p : String × Conn) : Option ConnId :=
  if mapHas cur p.1 then none
  else
    match p.2.id with
    | none => none
    | some i => some i

/-! ### Concrete fixtures used by witnesses and counterexamples -/

/-- A persisted gmail connection `{id: 1, status: "needs_setup"}`. -/
def cGmail : Conn := ⟨some (.num 1), "gmail", "gmail", some .needs_setup, none, none⟩

/-- The same connection after the user finishes setup (`status: "connected"`). -/
def cGmailDone : Conn := ⟨some (.num 1), "gmail", "gmail", some .connected, none, none⟩

/-- A brand-new facebook row (no id yet). -/
def cFacebookNew : Conn := ⟨none, "facebook", "facebook", none, none, none⟩

/-- A brand-new whatsapp row (no id yet). -/
def cWhatsappNew : Conn := ⟨none, "whatsapp", "whatsapp", none, none, none⟩

/-- A persisted shopify connection `{id: 2}`. -/
def cShopify2 : Conn := ⟨some (.num 2), "shopify", "shopify", some .connected, none, none⟩

/-- A freshly added row carrying a client temporary id. -/
def tmpSlack : Conn :=
  ⟨some (.str ("tmp:slack:1700000000000")), "slack", "slack", some .needs_setup, none, none⟩

/-- A demo create-response function: the server stores the payload and
assigns durable id 7. -/
def fcDemo : CreatePayload → Resp :=
  fun p => ⟨⟨some (.num 7), p.providerId, p.extId, some p.status, p.config, p.token⟩⟩

/-- A demo update-response function: the server echoes the patched record. -/
def fuDemo : ConnId → UpdatePayload → Resp :=
  fun i p => ⟨⟨some i, p.providerId, p.extId, p.status, p.config, p.token⟩⟩

/-- An oracle rejecting every call (network down). -/
def failOracle : Oracle :=
  ⟨fun _ => .error (), fun _ _ => .error (), fun _ => .error ()⟩

/-- A form state holding one unsaved row. -/
def form0 : FormState := ⟨[tmpSlack], [], [], []⟩

/-- A wizard state sitting on the last step. -/
def stLast : WizardState := { defaultState with current := .connections }

/-! ## Library lemmas about the JS-Map embedding -/

@[simp]
theorem equalConn_refl (c : Conn) : equalConn c c = true := by
  simp [equalConn]

@[simp]
theorem mapGet_nil {α : Type} (k : String) : mapGet ([] : List (String × α)) k = none := rfl

@[simp]
theorem mapHas_nil {α : Type} (k : String) : mapHas ([] : List (String × α)) k = false := rfl

@[simp]
theorem mapGet_cons {α : Type} (k k' : String) (v : α) (m : List (String × α)) :
    mapGet ((k', v) :: m) k = if k' = k then some v else mapGet m k := by
  by_cases h : k' = k <;> simp [mapGet, List.find?_cons, h]

@[simp]
theorem mapHas_cons {α : Type} (k k' : String) (v : α) (m : List (String × α)) :
    mapHas ((k', v) :: m) k = (decide (k' = k) || mapHas m k) := by
  by_cases h : k' = k <;> simp [mapHas, List.find?_cons, h]

theorem mapHas_eq_isSome_mapGet {α : Type} (m : List (String × α)) (k : String) :
    mapHas m k = (mapGet m k).isSome := by
  simp [mapHas, mapGet]

theorem mapGet_map_replace_ne {α : Type} {k k' : String} (h : k ≠ k')
    (m : List (String × α)) (v : α) :
    mapGet (m.map (fun p => if p.1 = k then (k, v) else p)) k' = mapGet m k' := by
  induction m with
  | nil => rfl
  | cons p m ih =>
    obtain ⟨pk, pv⟩ := p
    by_cases hpk : pk = k
    · subst hpk
      have hhead : (if (pk, pv).1 = pk then (pk, v) else (pk, pv)) = (pk, v) := by simp
      rw [List.map_cons, hhead, mapGet_cons, mapGet_cons, if_neg h, if_neg h]
      exact ih
    · simp only [List.map_cons, if_neg hpk]
      rw [mapGet_cons, mapGet_cons]
      by_cases hp : pk = k'
      · simp [hp]
      · rw [if_neg hp, if_neg hp]
        exact ih

theorem mapGet_map_replace_self {α : Type} {k : String} {m : List (String × α)}
    (hm : m.any (fun p => decide (p.1 = k)) = true) (v : α) :
    mapGet (m.map (fun p => if p.1 = k then (k, v) else p)) k = some v := by
  induction m with
  | nil => simp at hm
  | cons p m ih =>
    obtain ⟨pk, pv⟩ := p
    by_cases hpk : pk = k
    · subst hpk
      simp [List.map_cons, mapGet_cons]
    · have hm' : m.any (fun p => decide (p.1 = k)) = true := by
        simpa [List.any_cons, hpk] using hm
      simp only [List.map_cons, if_neg hpk]
      rw [mapGet_cons, if_neg hpk]
      exact ih hm'

theorem mapGet_append_single {α : Type} {k : String} {m : List (String × α)}
    (hm : m.any (fun p => decide (p.1 = k)) = false) (k' : String) (v : α) :
    mapGet (m ++ [(k, v)]) k' = if k = k' then some v else mapGet m k' := by
  induction m with
  | nil =>
    by_cases h : k = k' <;> simp [h]
  | cons p m ih =>
    obtain ⟨pk, pv⟩ := p
    rw [List.any_cons, Bool.or_eq_false_iff] at hm
    obtain ⟨h1, hm'⟩ := hm
    have hpk : pk ≠ k := by simpa using h1
    rw [List.cons_append, mapGet_cons, mapGet_cons, ih hm']
    by_cases hkk : k = k'
    · subst hkk
      rw [if_neg (fun hc => hpk hc), if_pos rfl, if_pos rfl]
    · by_cases hp : pk = k'
      · simp [hp, hkk]
      · simp [hp, hkk]

theorem mapGet_upsert {α : Type} (m : List (String × α)) (k k' : String) (v : α) :
    mapGet (upsert m k v) k' = if k = k' then some v else mapGet m k' := by
  unfold upsert
  by_cases hm : m.any (fun p => decide (p.1 = k)) = true
  · rw [if_pos hm]
    by_cases h : k = k'
    · subst h
      rw [if_pos rfl]
      exact mapGet_map_replace_self hm v
    · rw [if_neg h]
      exact mapGet_map_replace_ne h m v
  · rw [if_neg hm]
    exact mapGet_append_single (Bool.eq_false_iff.mpr hm) k' v

theorem mapHas_upsert {α : Type} (m : List (String × α)) (k k' : String) (v : α) :
    mapHas (upsert m k v) k' = (decide (k = k') || mapHas m k') := by
  rw [mapHas_eq_isSome_mapGet, mapGet_upsert, mapHas_eq_isSome_mapGet]
  by_cases h : k = k' <;> simp [h]

theorem mem_upsert {α : Type} {m : List (String × α)} {k : String} {v : α}
    {p : String × α} (hp : p ∈ upsert m k v) : p ∈ m ∨ p = (k, v) := by
  unfold upsert at hp
  by_cases hm : m.any (fun q => decide (q.1 = k)) = true
  · rw [if_pos hm] at hp
    obtain ⟨q, hq, hfq⟩ := List.mem_map.mp hp
    by_cases hqk : q.1 = k
    · right
      rw [if_pos hqk] at hfq
      exact hfq.symm
    · left
      rw [if_neg hqk] at hfq
      exact hfq ▸ hq
  · rw [if_neg hm] at hp
    rcases List.mem_append.mp hp with h | h
    · exact Or.inl h
    · exact Or.inr (List.mem_singleton.mp h)

theorem mem_foldl_upsert {α : Type} (key : α → String) (l : List α) :
    ∀ (acc : List (String × α)) (p : String × α),
      p ∈ l.foldl (fun m c => upsert m (key c) c) acc →
      p ∈ acc ∨ (p.1 = key p.2 ∧ p.2 ∈ l) := by
  induction l with
  | nil => intro acc p hp; exact Or.inl hp
  | cons c l ih =>
    intro acc p hp
    rcases ih (upsert acc (key c) c) p hp with h | h
    · rcases mem_upsert h with h' | h'
      · exact Or.inl h'
      · right
        refine h' ▸ ⟨rfl, ?_⟩
        exact List.mem_cons_self c l
    · exact Or.inr ⟨h.1, List.mem_cons_of_mem c h.2⟩

/-- Every entry of a JS `Map` built by `toMapBy` stores a value from the
source list under that value's own key. -/
theorem mem_toMapBy {α : Type} {key : α → String} {l : List α}
    {p : String × α} (hp : p ∈ toMapBy key l) : p.1 = key p.2 ∧ p.2 ∈ l := by
  rcases mem_foldl_upsert key l [] p hp with h | h
  · cases h
  · exact h

theorem keysOf_upsert_of_any {α : Type} {m : List (String × α)} {k : String}
    (hm : m.any (fun p => decide (p.1 = k)) = true) (v : α) :
    keysOf (upsert m k v) = keysOf m := by
  unfold upsert keysOf
  rw [if_pos hm, List.map_map]
  apply List.map_congr_left
  intro p _
  by_cases hp : p.1 = k
  · simp [hp]
  · simp [hp]

theorem keysOf_upsert_of_not_any {α : Type} {m : List (String × α)} {k : String}
    (hm : m.any (fun p => decide (p.1 = k)) = false) (v : α) :
    keysOf (upsert m k v) = keysOf m ++ [k] := by
  unfold upsert keysOf
  rw [if_neg (by simp [hm]), List.map_append]
  rfl

theorem nodup_keysOf_upsert {α : Type} {m : List (String × α)} {k : String} (v : α)
    (hm : (keysOf m).Nodup) : (keysOf (upsert m k v)).Nodup := by
  by_cases hany : m.any (fun p => decide (p.1 = k)) = true
  · rw [keysOf_upsert_of_any hany]
    exact hm
  · rw [keysOf_upsert_of_not_any (Bool.eq_false_iff.mpr hany)]
    rw [List.nodup_append]
    refine ⟨hm, List.nodup_singleton k, ?_⟩
    intro a ha hak
    rw [List.mem_singleton.mp hak] at ha
    obtain ⟨p, hp, hpk⟩ := List.mem_map.mp ha
    exact hany (List.any_eq_true.mpr ⟨p, hp, by simp [hpk]⟩)

theorem nodup_keysOf_toMapBy {α : Type} (key : α → String) (l : List α) :
    (keysOf (toMapBy key l)).Nodup := by
  suffices h : ∀ acc : List (String × α), (keysOf acc).Nodup →
      (keysOf (l.foldl (fun m c => upsert m (key c) c) acc)).Nodup by
    exact h [] List.nodup_nil
  induction l with
  | nil => intro acc hacc; exact hacc
  | cons c l ih =>
    intro acc hacc
    exact ih (upsert acc (key c) c) (nodup_keysOf_upsert c hacc)

theorem mapGet_of_mem_nodup {α : Type} {m : List (String × α)} {k : String} {v : α}
    (hmem : (k, v) ∈ m) (hnd : (keysOf m).Nodup) : mapGet m k = some v := by
  induction m with
  | nil => cases hmem
  | cons p m ih =>
    obtain ⟨pk, pv⟩ := p
    rw [mapGet_cons]
    rcases List.mem_cons.mp hmem with h | h
    · obtain ⟨h1, h2⟩ := Prod.mk.injEq .. ▸ h.symm
      rw [if_pos h1]
      exact congrArg some h2
    · have hk : k ∈ keysOf m := List.mem_map_of_mem Prod.fst h
      have hpk : pk ≠ k := by
        intro hc
        have := (List.nodup_cons.mp hnd).1
        exact this (hc ▸ hk)
      rw [if_neg hpk]
      exact ih h (List.nodup_cons.mp hnd).2

/-- Self-lookup in a `toMapBy`-built map. -/
theorem mapGet_toMapBy_self {α : Type} {key : α → String} {l : List α}
    {p : String × α} (hp : p ∈ toMapBy key l) :
    mapGet (toMapBy key l) p.1 = some p.2 :=
  mapGet_of_mem_nodup hp (nodup_keysOf_toMapBy key l)

theorem mapGet_mem {α : Type} {m : List (String × α)} {k : String} {v : α}
    (h : mapGet m k = some v) : (k, v) ∈ m := by
  unfold mapGet at h
  cases hf : m.find? (fun p => decide (p.1 = k)) with
  | none => rw [hf] at h; cases h
  | some p =>
    rw [hf] at h
    have hp := List.find?_some hf
    have hmem := List.mem_of_find?_eq_some hf
    have hk : p.1 = k := of_decide_eq_true hp
    have hv : p.2 = v := by simpa using h
    have hpk : p = (k, v) := Prod.ext hk hv
    exact hpk ▸ hmem

/-! ## Loop characterization lemmas -/

@[simp]
theorem mkOk_createC (fc : CreatePayload → Resp) (fu : ConnId → UpdatePayload → Resp)
    (p : CreatePayload) : (mkOk fc fu).createC p = .ok (fc p) := rfl

@[simp]
theorem mkOk_updateC (fc : CreatePayload → Resp) (fu : ConnId → UpdatePayload → Resp)
    (i : ConnId) (p : UpdatePayload) : (mkOk fc fu).updateC i p = .ok (fu i p) := rfl

@[simp]
theorem mkOk_deleteC (fc : CreatePayload → Resp) (fu : ConnId → UpdatePayload → Resp)
    (i : ConnId) : (mkOk fc fu).deleteC i = .ok () := rfl

/-- With an all-succeeding oracle, the create/update loop issues exactly
the per-entry calls of `cuOp` and accumulates exactly the per-entry
responses. -/
theorem cuLoop_mkOk (fc : CreatePayload → Resp) (fu : ConnId → UpdatePayload → Resp)
    (pre : List (String × Conn)) :
    ∀ sub : List (String × Conn),
      cuLoop (mkOk fc fu) pre sub =
        (sub.filterMap (cuOp pre),
         .ok (sub.filterMap (cuCreated pre fc), sub.filterMap (cuUpdated pre fu))) := by
  intro sub
  induction sub with
  | nil => rfl
  | cons p rest ih =>
    cases hget : mapGet pre p.1 with
    | none =>
      simp [cuLoop, cuOp, cuCreated, cuUpdated, hget, ih]
    | some prev =>
      by_cases heq : equalConn prev p.2 = true
      · simp [cuLoop, cuOp, cuCreated, cuUpdated, hget, heq, ih]
      · have heq' : equalConn prev p.2 = false := Bool.eq_false_iff.mpr heq
        cases hid : prev.id with
        | none => simp [cuLoop, cuOp, cuCreated, cuUpdated, hget, heq', hid, ih]
        | some i => simp [cuLoop, cuOp, cuCreated, cuUpdated, hget, heq', hid, ih]

/-- With an all-succeeding oracle, the delete loop issues exactly the
per-entry calls of `delOp` and accumulates exactly the ids of `delId`. -/
theorem delLoop_mkOk (fc : CreatePayload → Resp) (fu : ConnId → UpdatePayload → Resp)
    (cur : List (String × Conn)) :
    ∀ sub : List (String × Conn),
      delLoop (mkOk fc fu) cur sub =
        (sub.filterMap (delOp cur), .ok (sub.filterMap (delId cur))) := by
  intro sub
  induction sub with
  | nil => rfl
  | cons p rest ih =>
    by_cases hhas : mapHas cur p.1 = true
    · simp [delLoop, delOp, delId, hhas, ih]
    · have hhas' : mapHas cur p.1 = false := Bool.eq_false_iff.mpr hhas
      cases hid : p.2.id with
      | none => simp [delLoop, delOp, delId, hhas', hid, ih]
      | some i => simp [delLoop, delOp, delId, hhas', hid, ih]

/-- Full characterization of a successful pass. -/
theorem runDelta_mkOk (fc : CreatePayload → Resp) (fu : ConnId → UpdatePayload → Resp)
    (before after : List Conn) :
    runDelta (mkOk fc fu) before after =
      ((toMapBy keyFn after).filterMap (cuOp (toMapBy keyFn before)) ++
        (toMapBy keyFn before).filterMap (delOp (toMapBy keyFn after)),
       .ok ⟨(toMapBy keyFn after).filterMap (cuCreated (toMapBy keyFn before) fc),
            (toMapBy keyFn after).filterMap (cuUpdated (toMapBy keyFn before) fu),
            (toMapBy keyFn before).filterMap (delId (toMapBy keyFn after))⟩) := by
  simp [runDelta, cuLoop_mkOk, delLoop_mkOk]

/-- The create/update loop touches nothing when every entry has an
`equalConn`-equal counterpart. Holds for an arbitrary oracle: no call is
started. -/
theorem cuLoop_noop (o : Oracle) (pre : List (String × Conn)) :
    ∀ sub : List (String × Conn),
      (∀ p ∈ sub, ∃ prev, mapGet pre p.1 = some prev ∧ equalConn prev p.2 = true) →
      cuLoop o pre sub = ([], .ok ([], [])) := by
  intro sub
  induction sub with
  | nil => intro _; rfl
  | cons p rest ih =>
    intro h
    obtain ⟨prev, hget, heq⟩ := h p (List.mem_cons_self p rest)
    have hrest := ih (fun q hq => h q (List.mem_cons_of_mem p hq))
    simp [cuLoop, hget, heq, hrest]

/-- The delete loop touches nothing when every key survives. Holds for an
arbitrary oracle. -/
theorem delLoop_noop (o : Oracle) (cur : List (String × Conn)) :
    ∀ sub : List (String × Conn),
      (∀ p ∈ sub, mapHas cur p.1 = true) →
      delLoop o cur sub = ([], .ok []) := by
  intro sub
  induction sub with
  | nil => intro _; rfl
  | cons p rest ih =>
    intro h
    have hhas := h p (List.mem_cons_self p rest)
    have hrest := ih (fun q hq => h q (List.mem_cons_of_mem p hq))
    simp [delLoop, hhas, hrest]

/-! ## Claim theorems -/

/-- C1: for every pair of connection lists `before` and `after` that are
deep-equal (same ids, providerId, extId, status, config, token — i.e.
equal as values), one reconciliation pass of `saveConnectionsDelta`
issues zero create, update or delete network calls and returns
`{created: [], updated: [], deleted: []}` — for ANY oracle, since the
network is never touched. -/
theorem saveConnectionsDelta_noop (o : Oracle) (before after : List Conn)
    (h : before = after) :
    runDelta o before after = ([], .ok ⟨[], [], []⟩) := by
  subst h
  have hcu : cuLoop o (toMapBy keyFn before) (toMapBy keyFn before) = ([], .ok ([], [])) := by
    apply cuLoop_noop
    intro p hp
    exact ⟨p.2, mapGet_toMapBy_self hp, equalConn_refl p.2⟩
  have hdel : delLoop o (toMapBy keyFn before) (toMapBy keyFn before) = ([], .ok []) := by
    apply delLoop_noop
    intro p hp
    rw [mapHas_eq_isSome_mapGet, mapGet_toMapBy_self hp]
    rfl
  simp [runDelta, hcu, hdel]

/-- Witness for C1 at a concrete list, against the always-failing oracle:
even with the network down, an identical pair produces no calls and the
empty delta. -/
theorem saveConnectionsDelta_noop_witness :
    runDelta failOracle [cGmail, cShopify2] [cGmail, cShopify2] = ([], .ok ⟨[], [], []⟩) :=
  saveConnectionsDelta_noop failOracle [cGmail, cShopify2] [cGmail, cShopify2] rfl

theorem keyFn_of_id {c : Conn} {i : ConnId} (h : c.id = some i) :
    keyFn c = "id:" ++ idToString i := by
  simp [keyFn, h]

theorem keyFn_of_noId {c : Conn} (h : c.id = none) :
    keyFn c = "k:" ++ byProviderKeyConn c := by
  simp [keyFn, h, byProviderKeyConn, String.append_assoc]

theorem strAppend_left_cancel {s a b : String} (h : s ++ a = s ++ b) : a = b := by
  have hd := congrArg String.data h
  simp only [String.data_append] at hd
  exact String.ext (List.append_cancel_left hd)

theorem toMapBy_single {α : Type} (key : α → String) (a : α) :
    toMapBy key [a] = [(key a, a)] := rfl

theorem toMapBy_pair {α : Type} (key : α → String) (a b : α) (h : key a ≠ key b) :
    toMapBy key [a, b] = [(key a, a), (key b, b)] := by
  simp [toMapBy, upsert, h]

/-- After a successful pass, an update call for the key `k` shared by
both maps is in the trace exactly when the records differ under
`equalConn` and the `before` record has a non-null id. -/
theorem update_mem_iff (fc : CreatePayload → Resp)
    (fu : ConnId → UpdatePayload → Resp) (before after : List Conn)
    (k : String) (c prev : Conn)
    (hc : mapGet (toMapBy keyFn after) k = some c)
    (hprev : mapGet (toMapBy keyFn before) k = some prev) :
    (∃ i, prev.id = some i ∧
       Op.update i (mkUpdatePayload c) ∈ (runDelta (mkOk fc fu) before after).1)
    ↔ (equalConn prev c = false ∧ prev.id ≠ none) := by
  rw [runDelta_mkOk]
  constructor
  · rintro ⟨i, hid, hmem⟩
    refine ⟨?_, by simp [hid]⟩
    rcases List.mem_append.mp hmem with hmem | hmem
    · obtain ⟨q, hq, hopq⟩ := List.mem_filterMap.mp hmem
      cases hget : mapGet (toMapBy keyFn before) q.1 with
      | none => simp [cuOp, hget] at hopq
      | some prev' =>
        simp only [cuOp, hget] at hopq
        by_cases heq : equalConn prev' q.2 = true
        · rw [if_pos heq] at hopq; simp at hopq
        · rw [if_neg heq] at hopq
          cases hid' : prev'.id with
          | none => rw [hid'] at hopq; simp at hopq
          | some i' =>
            rw [hid'] at hopq
            have hii : i' = i := by
              have := Option.some.inj hopq
              exact (Op.update.inj this).1
            subst hii
            -- the entry's key is forced by the shared durable id
            have hkq : q.1 = keyFn prev' :=
              (mem_toMapBy (mapGet_mem hget)).1
            have hkk : k = keyFn prev :=
              (mem_toMapBy (mapGet_mem hprev)).1
            have hkeys : q.1 = k := by
              rw [hkq, hkk, keyFn_of_id hid', keyFn_of_id hid]
            rw [hkeys] at hget
            have hpp : prev' = prev := Option.some.inj (hget.symm.trans hprev)
            have hqc : q.2 = c := by
              have hself : mapGet (toMapBy keyFn after) q.1 = some q.2 :=
                mapGet_toMapBy_self hq
              rw [hkeys] at hself
              exact Option.some.inj (hself.symm.trans hc)
            rw [← hpp, ← hqc]
            exact Bool.eq_false_iff.mpr heq
    · obtain ⟨q, hq, hopq⟩ := List.mem_filterMap.mp hmem
      simp only [delOp] at hopq
      by_cases hhas : mapHas (toMapBy keyFn after) q.1 = true
      · rw [if_pos hhas] at hopq; simp at hopq
      · rw [if_neg hhas] at hopq
        cases hdi : q.2.id with
        | none => rw [hdi] at hopq; simp at hopq
        | some j => rw [hdi] at hopq; simp at hopq
  · rintro ⟨heq, hidne⟩
    cases hid : prev.id with
    | none => exact absurd hid hidne
    | some i =>
      refine ⟨i, rfl, ?_⟩
      apply List.mem_append.mpr
      left
      apply List.mem_filterMap.mpr
      exact ⟨(k, c), mapGet_mem hc, by simp [cuOp, hprev, heq, hid]⟩

/-- C3: with `before = [gmail(id 1, needs_setup)]` and
`after = [gmail(id 1, connected)]`, exactly one update call is issued,
carrying the new status, and no create or delete calls; and in general,
for a key present in both maps, an update call is issued iff the two
records differ under the diffing equality `equalConn` and the `before`
record's id is non-null. -/
theorem saveConnectionsDelta_update_detection :
    (∀ (fc : CreatePayload → Resp) (fu : ConnId → UpdatePayload → Resp),
      runDelta (mkOk fc fu) [cGmail] [cGmailDone] =
        ([.update (.num 1) (mkUpdatePayload cGmailDone)],
         .ok ⟨[], [fu (.num 1) (mkUpdatePayload cGmailDone)], []⟩) ∧
      (mkUpdatePayload cGmailDone).status = some .connected) ∧
    (∀ (fc : CreatePayload → Resp) (fu : ConnId → UpdatePayload → Resp)
       (before after : List Conn) (k : String) (c prev : Conn),
      mapGet (toMapBy keyFn after) k = some c →
      mapGet (toMapBy keyFn before) k = some prev →
      ((∃ i, prev.id = some i ∧
          Op.update i (mkUpdatePayload c) ∈ (runDelta (mkOk fc fu) before after).1)
       ↔ (equalConn prev c = false ∧ prev.id ≠ none))) := by
  constructor
  · intro fc fu
    refine ⟨?_, rfl⟩
    rw [runDelta_mkOk]
    rfl
  · intro fc fu before after k c prev hc hprev
    exact update_mem_iff fc fu before after k c prev hc hprev

/-- Witness for C3 at its own concrete scenario: the iff applied at key
`"id:1"` of the gmail pair certifies the update, and the concrete part is
applied at the demo response functions. -/
theorem saveConnectionsDelta_update_detection_witness :
    runDelta (mkOk fcDemo fuDemo) [cGmail] [cGmailDone] =
      ([.update (.num 1) (mkUpdatePayload cGmailDone)],
       .ok ⟨[], [fuDemo (.num 1) (mkUpdatePayload cGmailDone)], []⟩) ∧
    (Op.update (.num 1) (mkUpdatePayload cGmailDone) ∈
      (runDelta (mkOk fcDemo fuDemo) [cGmail] [cGmailDone]).1) :=
  ⟨(saveConnectionsDelta_update_detection.1 fcDemo fuDemo).1, by
    obtain ⟨i, hid, hmem⟩ :=
      (saveConnectionsDelta_update_detection.2 fcDemo fuDemo [cGmail] [cGmailDone]
        "id:1" cGmailDone cGmail (by rfl) (by rfl)).mpr
        ⟨by rfl, by simp [cGmail]⟩
    have h1 : ConnId.num 1 = i := by simpa [cGmail] using hid
    subst h1
    exact hmem⟩

/-- C4: with `before = []` and two id-less rows with distinct business
keys in `after`, exactly two create calls (in `after` order) and nothing
else; with `before = [c1(id 1), c2(id 2)]` and `after = []`, exactly two
delete calls for ids 1 and 2 and nothing else; and a `before` entry
missing from `after` whose id is null is never deleted — every delete in
a pass's trace carries the non-null id of some `before` record. -/
theorem saveConnectionsDelta_create_delete_symmetry :
    (∀ (fc : CreatePayload → Resp) (fu : ConnId → UpdatePayload → Resp)
       (c1 c2 : Conn), c1.id = none → c2.id = none →
      byProviderKeyConn c1 ≠ byProviderKeyConn c2 →
      runDelta (mkOk fc fu) [] [c1, c2] =
        ([.create (mkCreatePayload c1), .create (mkCreatePayload c2)],
         .ok ⟨[fc (mkCreatePayload c1), fc (mkCreatePayload c2)], [], []⟩)) ∧
    (∀ (fc : CreatePayload → Resp) (fu : ConnId → UpdatePayload → Resp)
       (c1 c2 : Conn), c1.id = some (.num 1) → c2.id = some (.num 2) →
      runDelta (mkOk fc fu) [c1, c2] [] =
        ([.delete (.num 1), .delete (.num 2)], .ok ⟨[], [], [.num 1, .num 2]⟩)) ∧
    (∀ (fc : CreatePayload → Resp) (fu : ConnId → UpdatePayload → Resp)
       (before after : List Conn) (i : ConnId),
      Op.delete i ∈ (runDelta (mkOk fc fu) before after).1 →
      ∃ c ∈ before, c.id = some i) := by
  refine ⟨?_, ?_, ?_⟩
  · intro fc fu c1 c2 h1 h2 hk
    have hkey : keyFn c1 ≠ keyFn c2 := by
      rw [keyFn_of_noId h1, keyFn_of_noId h2]
      intro hcon
      exact hk (strAppend_left_cancel hcon)
    rw [runDelta_mkOk, toMapBy_pair keyFn c1 c2 hkey]
    simp [cuOp, cuCreated, cuUpdated, delOp, delId, toMapBy]
  · intro fc fu c1 c2 h1 h2
    have k1 : keyFn c1 = "id:1" := by
      simp only [keyFn, h1]
      rfl
    have k2 : keyFn c2 = "id:2" := by
      simp only [keyFn, h2]
      rfl
    have hkey : keyFn c1 ≠ keyFn c2 := by
      rw [k1, k2]
      decide
    rw [runDelta_mkOk, toMapBy_pair keyFn c1 c2 hkey]
    simp [cuOp, cuCreated, cuUpdated, delOp, delId, toMapBy, h1, h2]
  · intro fc fu before after i hmem
    rw [runDelta_mkOk] at hmem
    rcases List.mem_append.mp hmem with hmem | hmem
    · obtain ⟨q, hq, hopq⟩ := List.mem_filterMap.mp hmem
      cases hget : mapGet (toMapBy keyFn before) q.1 with
      | none => simp [cuOp, hget] at hopq
      | some prev' =>
        simp only [cuOp, hget] at hopq
        by_cases heq : equalConn prev' q.2 = true
        · rw [if_pos heq] at hopq
          simp at hopq
        · rw [if_neg heq] at hopq
          cases hid' : prev'.id with
          | none => rw [hid'] at hopq; simp at hopq
          | some i' => rw [hid'] at hopq; simp at hopq
    · obtain ⟨q, hq, hopq⟩ := List.mem_filterMap.mp hmem
      simp only [delOp] at hopq
      by_cases hhas : mapHas (toMapBy keyFn after) q.1 = true
      · rw [if_pos hhas] at hopq
        simp at hopq
      · rw [if_neg hhas] at hopq
        cases hdi : q.2.id with
        | none => rw [hdi] at hopq; simp at hopq
        | some j =>
          rw [hdi] at hopq
          have hji : j = i := by simpa using hopq
          refine ⟨q.2, (mem_toMapBy hq).2, ?_⟩
          rw [hdi, hji]

/-- Witness for C4: both concrete scenarios, with the demo response
functions and the provider-catalog rows. -/
theorem saveConnectionsDelta_create_delete_symmetry_witness :
    runDelta (mkOk fcDemo fuDemo) [] [cFacebookNew, cWhatsappNew] =
      ([.create (mkCreatePayload cFacebookNew), .create (mkCreatePayload cWhatsappNew)],
       .ok ⟨[fcDemo (mkCreatePayload cFacebookNew),
             fcDemo (mkCreatePayload cWhatsappNew)], [], []⟩) ∧
    runDelta (mkOk fcDemo fuDemo) [cGmail, cShopify2] [] =
      ([.delete (.num 1), .delete (.num 2)], .ok ⟨[], [], [.num 1, .num 2]⟩) :=
  ⟨saveConnectionsDelta_create_delete_symmetry.1 fcDemo fuDemo
      cFacebookNew cWhatsappNew rfl rfl (by decide),
   saveConnectionsDelta_create_delete_symmetry.2.1 fcDemo fuDemo
      cGmail cShopify2 rfl rfl⟩

/-- C2 fails on the code: in a fully successful create flow (one id-less
`tmp:`-row, server create resolves with `{connection: {id: 7, ...}}`),
`saveConnectionsDelta` pushes the RAW wrapper onto `created`, so
`reconcileIds` keys its `createdMap` on the wrapper's absent
`providerId`/`extId` (`"undefined#undefined"`), never matches the row's
business key, and returns the row unchanged — the `tmp:` id survives and
the displayed rows still carry it. -/
theorem reconcileIds_keeps_tmp_id :
    (runDelta (mkOk fcDemo fuDemo) [] [tmpSlack]).2 =
      .ok ⟨[fcDemo (mkCreatePayload tmpSlack)], [], []⟩ ∧
    (fcDemo (mkCreatePayload tmpSlack)).connection.id = some (.num 7) ∧
    byProviderKeyResp (fcDemo (mkCreatePayload tmpSlack)) = "undefined#undefined" ∧
    reconcileIds [tmpSlack] [fcDemo (mkCreatePayload tmpSlack)] [] = [tmpSlack] ∧
    rowIsTmp tmpSlack = true ∧
    (applyDelta (some ("12")) (mkOk fcDemo fuDemo) form0 [] [tmpSlack]).1.rows
      = [tmpSlack] := by
  refine ⟨rfl, rfl, rfl, ?_, ?_, ?_⟩ <;> decide

/-- C7: if any network call of the pass rejects, `applyDelta` leaves the
displayed rows, the server-snapshot ref and the parent-reported lists
untouched and surfaces exactly one error notification. -/
theorem applyDelta_error_atomic (a : String) (o : Oracle) (st : FormState)
    (before after : List Conn)
    (h : (runDelta o before after).2 = .error ()) :
    (applyDelta (some a) o st before after).1.rows = st.rows ∧
    (applyDelta (some a) o st before after).1.initialRef = st.initialRef ∧
    (applyDelta (some a) o st before after).1.parentReports = st.parentReports ∧
    (applyDelta (some a) o st before after).1.notifs = st.notifs ++ [.error] := by
  cases hr : runDelta o before after with
  | mk ops r =>
    cases r with
    | ok d =>
      rw [hr] at h
      simp at h
    | error e =>
      simp [applyDelta, hr]

/-- Witness for C7: network down, one row to create — the pass rejects
and the client state is untouched apart from the single error
notification. -/
theorem applyDelta_error_atomic_witness :
    (applyDelta (some ("12")) failOracle form0 [] [cFacebookNew]).1.rows = form0.rows ∧
    (applyDelta (some ("12")) failOracle form0 [] [cFacebookNew]).1.notifs
      = form0.notifs ++ [.error] :=
  ⟨(applyDelta_error_atomic ("12") failOracle form0 [] [cFacebookNew] rfl).1,
   (applyDelta_error_atomic ("12") failOracle form0 [] [cFacebookNew] rfl).2.2.2⟩

/-- C10: with no agent id known, a connections edit performs zero network
calls: `applyDelta` sets both the displayed rows and the diff snapshot to
the edited list, reports that list to the parent via `onChange`, and
issues no notification — for any oracle, since the network branch is
never entered. -/
theorem applyDelta_local_when_no_agent (o : Oracle) (st : FormState)
    (before after : List Conn) :
    applyDelta none o st before after =
      ({ st with
          rows := after
          initialRef := after
          parentReports := st.parentReports ++ [after] }, []) := rfl

/-! ## Numeric coercion lemmas -/

theorem clampZ_bound (n : ℤ) : 0 ≤ max 0 (min 10 n) ∧ max 0 (min 10 n) ≤ 10 :=
  ⟨le_max_left _ _, max_le (by norm_num) (min_le_left _ _)⟩

theorem clampZ_fix {n : ℤ} (h0 : 0 ≤ n) (h10 : n ≤ 10) : max 0 (min 10 n) = n := by
  rw [min_eq_right h10, max_eq_right h0]

theorem clampQ_fix {q : ℚ} (h0 : 0 ≤ q) (h10 : q ≤ 10) : max 0 (min 10 q) = q := by
  rw [min_eq_right h10, max_eq_right h0]

theorem jsRound_intCast (z : ℤ) : jsRound ((z : ℚ)) = z := by
  unfold jsRound
  rw [add_comm, Int.floor_add_int]
  norm_num

theorem toInt010_some (q : ℚ) : toInt010 (some q) = max 0 (min 10 (jsRound q)) := rfl

theorem clamp01_some (q : ℚ) : clamp01 (some q) = max 0 (min 10 q) := rfl

/-- C5 fails on the code for `clamp01`: `toServerAgentPayload` builds the
submission payload with `clamp01`, which clamps and defaults but does NOT
round, so the finite non-integer 7.5 passes through as 7.5 — not an
integer (the server schema demands `z.number().int()`). The `toInt010`
coercion of the wizard page does round-then-clamp into `[0,10]` with
default 5, and both coercions are idempotent. -/
theorem styleCoercion_clamp01_not_rounding :
    clamp01 (some (15 / 2)) = 15 / 2 ∧
    (∀ z : ℤ, (z : ℚ) ≠ 15 / 2) ∧
    toInt010 (some (15 / 2)) = 8 ∧
    (∀ v : Option ℚ, 0 ≤ toInt010 v ∧ toInt010 v ≤ 10) ∧
    (toInt010 none = 5 ∧ clamp01 none = 5) ∧
    (∀ v : Option ℚ, toInt010 (some ((toInt010 v : ℤ) : ℚ)) = toInt010 v) ∧
    (∀ v : Option ℚ, clamp01 (some (clamp01 v)) = clamp01 v) ∧
    (∀ v : Option ℚ, 0 ≤ clamp01 v ∧ clamp01 v ≤ 10) := by
  have hbound : ∀ v : Option ℚ, 0 ≤ toInt010 v ∧ toInt010 v ≤ 10 := by
    intro v
    cases v with
    | none => exact ⟨by norm_num [toInt010], by norm_num [toInt010]⟩
    | some q => rw [toInt010_some]; exact clampZ_bound _
  have hqbound : ∀ v : Option ℚ, 0 ≤ clamp01 v ∧ clamp01 v ≤ 10 := by
    intro v
    cases v with
    | none => exact ⟨by norm_num [clamp01], by norm_num [clamp01]⟩
    | some q =>
      rw [clamp01_some]
      exact ⟨le_max_left _ _, max_le (by norm_num) (min_le_left _ _)⟩
  refine ⟨?_, ?_, ?_, hbound, ⟨rfl, rfl⟩, ?_, ?_, hqbound⟩
  · rw [clamp01_some]
    exact clampQ_fix (by norm_num) (by norm_num)
  · intro z h
    have h2 : ((2 * z : ℤ) : ℚ) = 15 := by
      push_cast
      rw [h]
      ring
    have h3 : (2 * z : ℤ) = 15 := by exact_mod_cast h2
    omega
  · rw [toInt010_some]
    have hr : jsRound (15 / 2 : ℚ) = 8 := by
      unfold jsRound
      norm_num
    rw [hr]
    norm_num
  · intro v
    obtain ⟨h0, h10⟩ := hbound v
    rw [toInt010_some, jsRound_intCast, clampZ_fix h0 h10]
  · intro v
    obtain ⟨h0, h10⟩ := hqbound v
    rw [clamp01_some, clampQ_fix h0 h10]

/-- Witness for C5: the coercions evaluated at the failing input 7.5 and
at the absent input. -/
theorem styleCoercion_clamp01_not_rounding_witness :
    clamp01 (some (15 / 2)) = 15 / 2 ∧
    toInt010 (some (15 / 2)) = 8 ∧
    toInt010 none = 5 :=
  ⟨styleCoercion_clamp01_not_rounding.1,
   styleCoercion_clamp01_not_rounding.2.2.1,
   styleCoercion_clamp01_not_rounding.2.2.2.2.1.1⟩

/-! ## Hex normalization lemmas -/

theorem hexBody_cons_of_ne {c : Char} (hc : c ≠ '#') (t : List Char) :
    hexBody (c :: t) = c :: t := by
  unfold hexBody
  split
  · next t' heq =>
    rw [List.cons.injEq] at heq
    exact absurd heq.1 hc
  · rfl

theorem normHex_cons_hash (t : List Char) :
    normHex (some ('#' :: t)) = some ('#' :: t) := rfl

theorem normHex_cons_of_ne {c : Char} (hc : c ≠ '#') (t : List Char) :
    normHex (some (c :: t)) = some ('#' :: c :: t) := by
  show some (match c :: t with
    | '#' :: t => '#' :: t
    | l => '#' :: l) = some ('#' :: c :: t)
  congr 1
  split
  · next t' heq =>
    rw [List.cons.injEq] at heq
    exact absurd heq.1 hc
  · rfl

theorem hexRe_hash_cons {c : Char} (hc : c ≠ '#') (t : List Char) :
    hexRe ('#' :: c :: t) = hexRe (c :: t) := by
  unfold hexRe
  rw [show hexBody ('#' :: c :: t) = c :: t from rfl, hexBody_cons_of_ne hc]

/-- A valid input normalizes to a `#`-headed, still-valid string. -/
theorem normColor_of_isHex {l : List Char} (h : isHex (some l) = true) :
    ∃ t, normColor (some l) = some ('#' :: t) ∧ isHex (some ('#' :: t)) = true := by
  cases l with
  | nil => simp [isHex] at h
  | cons c t =>
    by_cases hc : c = '#'
    · subst hc
      exact ⟨t, by rw [normColor, if_pos h, normHex_cons_hash], h⟩
    · refine ⟨c :: t, ?_, ?_⟩
      · rw [normColor, if_pos h, normHex_cons_of_ne hc]
      · show hexRe ('#' :: c :: t) = true
        rw [hexRe_hash_cons hc]
        exact h

/-- C6: the `bgColor` normalization of `toServerAgentPayload` is
idempotent; every valid hex string (with or without leading `#`)
normalizes to a `#`-headed string; every invalid input (including `null`
and the empty string) normalizes to `null`; and any non-null stored
result matches the hex pattern itself. -/
theorem bgColor_normalization :
    (∀ s : Option (List Char), normColor (normColor s) = normColor s) ∧
    (∀ l : List Char, isHex (some l) = true →
      ∃ t, normColor (some l) = some ('#' :: t)) ∧
    (∀ l : List Char, isHex (some l) = false → normColor (some l) = none) ∧
    (∀ (s : Option (List Char)) (r : List Char),
      normColor s = some r → isHex (some r) = true) := by
  have hvalid : ∀ (s : Option (List Char)) (r : List Char),
      normColor s = some r → isHex (some r) = true := by
    intro s r h
    cases s with
    | none => simp [normColor, isHex] at h
    | some l =>
      by_cases hl : isHex (some l) = true
      · obtain ⟨t, he, hv⟩ := normColor_of_isHex hl
        rw [he] at h
        exact (Option.some.inj h) ▸ hv
      · rw [normColor, if_neg hl] at h
        cases h
  have hhash : ∀ (s : Option (List Char)) (r : List Char),
      normColor s = some r → ∃ t, r = '#' :: t := by
    intro s r hs
    cases s with
    | none => simp [normColor, isHex] at hs
    | some l =>
      by_cases hl : isHex (some l) = true
      · obtain ⟨t', he', _⟩ := normColor_of_isHex hl
        rw [he'] at hs
        exact ⟨t', (Option.some.inj hs).symm⟩
      · rw [normColor, if_neg hl] at hs
        cases hs
  refine ⟨?_, ?_, ?_, hvalid⟩
  · intro s
    cases hs : normColor s with
    | none => simp [normColor, isHex]
    | some r =>
      have hv := hvalid s r hs
      obtain ⟨t', rfl⟩ := hhash s r hs
      rw [normColor, if_pos hv, normHex_cons_hash]
  · intro l h
    obtain ⟨t, he, _⟩ := normColor_of_isHex h
    exact ⟨t, he⟩
  · intro l h
    rw [normColor, if_neg (by simp [h])]

/-- Witness for C6: the un-hashed valid string `"e7e31b"` normalizes to
`"#e7e31b"`; re-normalizing is stable; and an invalid string maps to
null. -/
theorem bgColor_normalization_witness :
    (∃ t, normColor (some ("e7e31b".data)) = some ('#' :: t)) ∧
    normColor (normColor (some ("e7e31b".data))) = normColor (some ("e7e31b".data)) ∧
    normColor (some ("not-a-color".data)) = none :=
  ⟨bgColor_normalization.2.1 ("e7e31b".data) (by decide),
   bgColor_normalization.1 (some ("e7e31b".data)),
   bgColor_normalization.2.2.1 ("not-a-color".data) (by decide)⟩

/-! ## Wizard step navigation -/

/-- C8: `back` at the first step, `next` at the last step, and `goto` to
the current step are exact no-ops — the state is returned unchanged, so
in particular `updatedAt` is not bumped; the reducer's own `SET_STEP`
guard also returns the identical state. -/
theorem wizard_step_boundaries :
    (∀ (now : Nat) (st : WizardState), st.current = Step.identity →
      back now st = st) ∧
    (∀ (now : Nat) (st : WizardState), st.current = Step.connections →
      next now st = st) ∧
    (∀ (now : Nat) (st : WizardState) (s : Step), st.current = s →
      goto now st s = st) ∧
    (∀ (now : Nat) (st : WizardState),
      reducer now st (.setStep st.current) = st) := by
  refine ⟨?_, ?_, ?_, ?_⟩
  · intro now st h
    have h0 : STEPS.indexOf Step.identity = 0 := rfl
    simp [back, h, h0]
  · intro now st h
    have h5 : STEPS.indexOf Step.connections = 5 := rfl
    simp [next, h, h5, STEPS]
  · intro now st s h
    simp [goto, h]
  · intro now st
    simp [reducer]

/-- Witness for C8 at the default state (first step) and at a state on
the last step. -/
theorem wizard_step_boundaries_witness :
    back 3 defaultState = defaultState ∧
    next 4 stLast = stLast ∧
    goto 5 defaultState Step.identity = defaultState ∧
    reducer 6 defaultState (.setStep defaultState.current) = defaultState :=
  ⟨wizard_step_boundaries.1 3 defaultState rfl,
   wizard_step_boundaries.2.1 4 stLast rfl,
   wizard_step_boundaries.2.2.1 5 defaultState Step.identity rfl,
   wizard_step_boundaries.2.2.2 6 defaultState⟩

/-- C9 as stated is false on the code: the wizard's fifth step identifier
is `"cards"` (UI label "Background"), not `"background"`. Navigating to
it — a perfectly reachable store operation — produces a state whose
`currentStep` is outside the claimed set
`{identity, appearance, voiceSoul, brain, background, connections}`. -/
theorem currentStep_claimed_set_counterexample :
    stepName ((reducer 1 defaultState (.setStep .cards)).current) = "cards" ∧
    "cards" ∉ ["identity", "appearance", "voiceSoul", "brain",
               "background", "connections"] := by
  exact ⟨rfl, by decide⟩

/-- C9 (amended): the wizard state has exactly one `current` step field,
the default state's step belongs to the fixed ordered identifier set
`{identity, appearance, voiceSoul, brain, cards, connections}` (the
names of `STEPS`, in order), and every reducer action — section save,
step navigation, hydrate-merge, draft-id set, reset — preserves
membership, as do the `next`/`back`/`goto` callbacks. -/
theorem currentStep_member_of_steps :
    stepName defaultState.current ∈ STEPS.map stepName ∧
    (∀ (now : Nat) (st : WizardState) (a : WAction),
      stepName ((reducer now st a).current) ∈ STEPS.map stepName) ∧
    (∀ (now : Nat) (st : WizardState),
      stepName ((next now st).current) ∈ STEPS.map stepName ∧
      stepName ((back now st).current) ∈ STEPS.map stepName) ∧
    (∀ (now : Nat) (st : WizardState) (s : Step),
      stepName ((goto now st s).current) ∈ STEPS.map stepName) := by
  have hall : ∀ s : Step, stepName s ∈ STEPS.map stepName := by decide
  exact ⟨hall _, fun _ _ _ => hall _,
    fun _ _ => ⟨hall _, hall _⟩, fun _ _ _ => hall _⟩

end FutureHuman
